import Mathlib

/-!
Verification development for the matrix-org/lb low-bandwidth Matrix gateway.

The Go source is shallowly embedded: paths are Lean `String`s manipulated
through an explicit code-point splitter (Go `strings.Split(path, "/")` on the
ASCII separator byte is exactly a code-point split on the character slash),
CBOR/JSON values are inductive types, and the stateful OBSERVE long-poll loop
is a step function over an explicit state with an oracle for the external
effects (upstream HTTP responses, transmission outcomes, ref-count queries).
Go maps are modelled as association lists; map iteration order, which Go
leaves unspecified, is modelled as list order.
-/

set_option maxRecDepth 8000

/-! ### Path segment machinery

`splitChars` models Go `strings.Split(s, "/")`; `joinChars` models
`strings.Join(segs, "/")`. -/

/-- Split a character list on every slash, like Go `strings.Split(s, "/")`.
The result is always nonempty. -/
def splitChars : List Char → List (List Char)
  | [] => [[]]
  | c :: cs =>
    match splitChars cs with
    | [] => [[]]
    | s :: ss => if c = '/' then [] :: s :: ss else (c :: s) :: ss

/-- Join segments with slashes, like Go `strings.Join(segs, "/")`. -/
def joinChars : List (List Char) → List Char
  | [] => []
  | [s] => s
  | s :: s2 :: ss => s ++ '/' :: joinChars (s2 :: ss)

theorem splitChars_ne_nil (cs : List Char) : splitChars cs ≠ [] := by
  induction cs with
  | nil => simp [splitChars]
  | cons c cs ih =>
    simp only [splitChars]
    match h : splitChars cs with
    | [] => exact absurd h ih
    | s :: ss => dsimp; split <;> simp

theorem joinChars_splitChars (cs : List Char) : joinChars (splitChars cs) = cs := by
  induction cs with
  | nil => simp [splitChars, joinChars]
  | cons c cs ih =>
    simp only [splitChars]
    match h : splitChars cs with
    | [] => exact absurd h (splitChars_ne_nil cs)
    | s :: ss =>
      rw [h] at ih
      dsimp
      split
      next hc =>
        subst hc
        simp [joinChars, ih]
      next hc =>
        cases ss with
        | nil => simpa [joinChars] using congrArg (c :: ·) ih
        | cons s2 ss2 => simpa [joinChars] using congrArg (c :: ·) ih

theorem splitChars_no_slash {cs : List Char} (h : '/' ∉ cs) : splitChars cs = [cs] := by
  induction cs with
  | nil => simp [splitChars]
  | cons c cs ih =>
    simp only [List.mem_cons, not_or] at h
    rw [splitChars, ih h.2]
    dsimp
    rw [if_neg (fun hc => h.1 hc.symm)]

theorem splitChars_append_slash {a : List Char} (rest : List Char) (h : '/' ∉ a) :
    splitChars (a ++ '/' :: rest) = a :: splitChars rest := by
  induction a with
  | nil =>
    show splitChars ('/' :: rest) = [] :: splitChars rest
    cases hs : splitChars rest with
    | nil => exact absurd hs (splitChars_ne_nil rest)
    | cons s ss => rw [splitChars, hs]; simp
  | cons c a ih =>
    simp only [List.mem_cons, not_or] at h
    rw [List.cons_append, splitChars, ih h.2]
    dsimp
    rw [if_neg (fun hc => h.1 hc.symm)]

theorem mem_splitChars_no_slash {cs : List Char} {s : List Char} (h : s ∈ splitChars cs) :
    '/' ∉ s := by
  induction cs generalizing s with
  | nil => simp [splitChars] at h; simp [h]
  | cons c cs ih =>
    simp only [splitChars] at h
    match hs : splitChars cs with
    | [] => exact absurd hs (splitChars_ne_nil cs)
    | t :: ts =>
      rw [hs] at h
      dsimp at h
      split at h
      next hc =>
        rcases List.mem_cons.mp h with rfl | h2
        · simp
        · exact ih (hs ▸ h2)
      next hc =>
        rcases List.mem_cons.mp h with rfl | h2
        · intro hmem
          rcases List.mem_cons.mp hmem with rfl | hmem2
          · exact hc rfl
          · exact ih (hs ▸ List.mem_cons_self t ts) hmem2
        · exact ih (hs ▸ List.mem_cons_of_mem t h2)

theorem splitChars_joinChars {segs : List (List Char)} (hne : segs ≠ [])
    (h : ∀ s ∈ segs, '/' ∉ s) : splitChars (joinChars segs) = segs := by
  induction segs with
  | nil => exact absurd rfl hne
  | cons s ss ih =>
    cases ss with
    | nil => simpa [joinChars] using splitChars_no_slash (h s (by simp))
    | cons s2 ss2 =>
      rw [joinChars, splitChars_append_slash _ (h s (by simp))]
      rw [ih (by simp) (fun t ht => h t (List.mem_cons_of_mem s ht))]

/-! ### URL path escaping

Models Go `url.PathEscape` (mode `encodePathSegment`): ASCII alphanumerics,
`-_.~` and the reserved characters `$&+:=@` pass through; every other byte is
percent-encoded with uppercase hex.  Characters beyond ASCII are escaped
byte-by-byte on their UTF-8 encoding. -/

/-- Uppercase hexadecimal digit for a value below 16, as Go's "0123456789ABCDEF". -/
def hexDigit (n : Nat) : Char :=
  if n < 10 then Char.ofNat (48 + n) else Char.ofNat (55 + n)

/-- Percent-encode one byte. -/
def escByte (b : Nat) : List Char :=
  ['%', hexDigit (b / 16), hexDigit (b % 16)]

/-- UTF-8 encoding of a character, as a list of byte values. -/
def utf8Bytes (c : Char) : List Nat :=
  let n := c.toNat
  if n < 0x80 then [n]
  else if n < 0x800 then [0xC0 ||| (n >>> 6), 0x80 ||| (n &&& 0x3F)]
  else if n < 0x10000 then
    [0xE0 ||| (n >>> 12), 0x80 ||| ((n >>> 6) &&& 0x3F), 0x80 ||| (n &&& 0x3F)]
  else
    [0xF0 ||| (n >>> 18), 0x80 ||| ((n >>> 12) &&& 0x3F),
     0x80 ||| ((n >>> 6) &&& 0x3F), 0x80 ||| (n &&& 0x3F)]

/-- Go `shouldEscape(c, encodePathSegment)` is false exactly for these characters. -/
def pathSegmentSafe (c : Char) : Bool :=
  (('a' ≤ c && c ≤ 'z') || ('A' ≤ c && c ≤ 'Z') || ('0' ≤ c && c ≤ '9')) ||
  (c = '-' || c = '_' || c = '.' || c = '~') ||
  (c = '$' || c = '&' || c = '+' || c = ':' || c = '=' || c = '@')

/-- Escape one character as Go `url.PathEscape` does. -/
def pathEscapeChar (c : Char) : List Char :=
  if c.toNat < 0x80 then
    if pathSegmentSafe c then [c] else escByte c.toNat
  else (utf8Bytes c).flatMap escByte

/-- Go `url.PathEscape` over one path segment. -/
def pathEscapeSeg (s : List Char) : List Char :=
  s.flatMap pathEscapeChar

/-! ### The CoAP path model (`coap_paths.go`)

A `PathTable` models `CoAPPath.pathMappings`: enum code to URL template.
All v1 templates use `{placeholder}` for complete path segments, so the
compiled gorilla/mux matcher `^…[/]?$` (static segments quoted, each
`{…}` segment compiled to `([^/]+)`) is modelled segment-wise. -/

abbrev PathTable := List (String × String)

/-- Is this template segment a `{placeholder}`?  `CoAPPathToHTTPPath` tests
`strings.HasPrefix(seg, "{")`. -/
def isVarSeg (s : List Char) : Bool :=
  s.head? = some '{'

/-- Template matching, segment-wise: static segments compare literally, each
`{…}` segment matches one nonempty path segment (`[^/]+`) which is collected
as a parameter, in order. -/
def segsMatch : List (List Char) → List (List Char) → Option (List (List Char))
  | [], [] => some []
  | t :: ts, p :: ps =>
    if isVarSeg t then
      if p.isEmpty then none else (segsMatch ts ps).map (p :: ·)
    else if t = p then segsMatch ts ps else none
  | _, _ => none

/-- Segments of a template with a trailing slash stripped, as `newRouteRegexp`
strips `tpl[:len(tpl)-1]` before compiling the matcher. -/
def stripSlashSegs (tpl : String) : List (List Char) :=
  if tpl.data.getLast? = some '/' then (splitChars tpl.data).dropLast
  else splitChars tpl.data

/-- Match a path (already split into segments) against a template, allowing the
single optional trailing slash of the `[/]?$` anchor. -/
def routeMatch (tpl : String) (pathSegs : List (List Char)) : Option (List (List Char)) :=
  let t := stripSlashSegs tpl
  match segsMatch t pathSegs with
  | some ps => some ps
  | none =>
    match pathSegs.getLast? with
    | some lastSeg =>
      if lastSeg.isEmpty then segsMatch t pathSegs.dropLast else none
    | none => none

/-- First table entry whose compiled matcher accepts the path, with the
extracted parameters.  Go iterates `regexpsToCodes` (a map, order
unspecified); the model iterates in table order. -/
def findFirstRoute : PathTable → List (List Char) → Option (String × List (List Char))
  | [], _ => none
  | (code, tpl) :: rest, segs =>
    match routeMatch tpl segs with
    | some params => some (code, params)
    | none => findFirstRoute rest segs

/-- Does the path string start with a slash (`strings.HasPrefix(p, "/")`)? -/
def startsWithSlash (p : String) : Bool :=
  p.data.head? = some '/'

/-- Prepend the missing leading slash, as both converters do. -/
def ensureSlash (p : String) : String :=
  if startsWithSlash p then p else String.mk ('/' :: p.data)

/-- `pathMappings[seg]`: template for an enum code, `""` when absent
(the Go map zero value). -/
def lookupTpl (tbl : PathTable) (seg : List Char) : List Char :=
  match tbl.find? (fun e => e.1.data = seg) with
  | some e => e.2.data
  | none => []

/-- The overlay loop of `CoAPPathToHTTPPath`: walk the template segments,
substituting the next (path-escaped) CoAP segment for each `{…}` segment;
when CoAP segments run out the remaining template segments are kept verbatim,
and leftover CoAP segments are dropped. -/
def overlaySegs : List (List Char) → List (List Char) → List (List Char)
  | [], _ => []
  | hs, [] => hs
  | h :: hs, c :: cs =>
    if isVarSeg h then pathEscapeSeg c :: overlaySegs hs cs
    else h :: overlaySegs hs (c :: cs)

/-- `CoAPPath.CoAPPathToHTTPPath` from `coap_paths.go`: converts a CoAP enum
path such as `/7` into the full HTTP path; returns the input when the second
segment is not a known enum code. -/
def CoAPPathToHTTPPath (tbl : PathTable) (p : String) : String :=
  let path := ensureSlash p
  match splitChars path.data with
  | _ :: seg1 :: rest =>
    let pattern := lookupTpl tbl seg1
    if pattern.isEmpty then p
    else if rest.isEmpty then String.mk pattern
    else String.mk (joinChars (overlaySegs (splitChars pattern) rest))
  | _ => p

/-- `CoAPPath.HTTPPathToCoapPath` from `coap_paths.go`: converts an HTTP path
into `/code` or `/code/param1/…`; returns the input when no template matches. -/
def HTTPPathToCoapPath (tbl : PathTable) (p : String) : String :=
  let path := ensureSlash p
  match findFirstRoute tbl (splitChars path.data) with
  | some (code, params) =>
    let paths := if params.isEmpty then [] else '/' :: joinChars params
    String.mk ('/' :: (code.data ++ paths))
  | none => p

/-! ### The v1 path enum table (`paths_v1.go`) -/

/-- `coapv1pathMappings`: the 54 v1 enum codes and their URL templates. -/
def coapv1pathMappings : PathTable := [
  ("0", "/_matrix/client/versions"),
  ("1", "/_matrix/client/r0/login"),
  ("2", "/_matrix/client/r0/capabilities"),
  ("3", "/_matrix/client/r0/logout"),
  ("4", "/_matrix/client/r0/register"),
  ("5", "/_matrix/client/r0/user/{userId}/filter"),
  ("6", "/_matrix/client/r0/user/{userId}/filter/{filterId}"),
  ("7", "/_matrix/client/r0/sync"),
  ("8", "/_matrix/client/r0/rooms/{roomId}/state/{eventType}/{stateKey}"),
  ("9", "/_matrix/client/r0/rooms/{roomId}/send/{eventType}/{txnId}"),
  ("A", "/_matrix/client/r0/rooms/{roomId}/event/{eventId}"),
  ("B", "/_matrix/client/r0/rooms/{roomId}/state"),
  ("C", "/_matrix/client/r0/rooms/{roomId}/members"),
  ("D", "/_matrix/client/r0/rooms/{roomId}/joined_members"),
  ("E", "/_matrix/client/r0/rooms/{roomId}/messages"),
  ("F", "/_matrix/client/r0/rooms/{roomId}/redact/{eventId}/{txnId}"),
  ("G", "/_matrix/client/r0/createRoom"),
  ("H", "/_matrix/client/r0/directory/room/{roomAlias}"),
  ("I", "/_matrix/client/r0/joined_rooms"),
  ("J", "/_matrix/client/r0/rooms/{roomId}/invite"),
  ("K", "/_matrix/client/r0/rooms/{roomId}/join"),
  ("L", "/_matrix/client/r0/join/{roomIdOrAlias}"),
  ("M", "/_matrix/client/r0/rooms/{roomId}/leave"),
  ("N", "/_matrix/client/r0/rooms/{roomId}/forget"),
  ("O", "/_matrix/client/r0/rooms/{roomId}/kick"),
  ("P", "/_matrix/client/r0/rooms/{roomId}/ban"),
  ("Q", "/_matrix/client/r0/rooms/{roomId}/unban"),
  ("R", "/_matrix/client/r0/directory/list/room/{roomId}"),
  ("S", "/_matrix/client/r0/publicRooms"),
  ("T", "/_matrix/client/r0/user_directory/search"),
  ("U", "/_matrix/client/r0/profile/{userId}/displayname"),
  ("V", "/_matrix/client/r0/profile/{userId}/avatar_url"),
  ("W", "/_matrix/client/r0/profile/{userId}"),
  ("X", "/_matrix/client/r0/voip/turnServer"),
  ("Y", "/_matrix/client/r0/rooms/{roomId}/typing/{userId}"),
  ("Z", "/_matrix/client/r0/rooms/{roomId}/receipt/{receiptType}/{eventId}"),
  ("a", "/_matrix/client/r0/rooms/{roomId}/read_markers"),
  ("b", "/_matrix/client/r0/presence/{userId}/status"),
  ("c", "/_matrix/client/r0/sendToDevice/{eventType}/{txnId}"),
  ("d", "/_matrix/client/r0/devices"),
  ("e", "/_matrix/client/r0/devices/{deviceId}"),
  ("f", "/_matrix/client/r0/delete_devices"),
  ("g", "/_matrix/client/r0/keys/upload"),
  ("h", "/_matrix/client/r0/keys/query"),
  ("i", "/_matrix/client/r0/keys/claim"),
  ("j", "/_matrix/client/r0/keys/changes"),
  ("k", "/_matrix/client/r0/pushers"),
  ("l", "/_matrix/client/r0/pushers/set"),
  ("m", "/_matrix/client/r0/notifications"),
  ("n", "/_matrix/client/r0/pushrules/"),
  ("o", "/_matrix/client/r0/search"),
  ("p", "/_matrix/client/r0/user/{userId}/rooms/{roomId}/tags"),
  ("q", "/_matrix/client/r0/user/{userId}/rooms/{roomId}/tags/{tag}"),
  ("r", "/_matrix/client/r0/user/{userId}/account_data/{type}"),
  ("s", "/_matrix/client/r0/user/{userId}/rooms/{roomId}/context/{eventId}"),
  ("t", "/_matrix/client/r0/rooms/{roomId}/context/{eventId}"),
  ("u", "/_matrix/client/r0/rooms/{roomId}/report/{eventId}")]



/-! ### Matching and overlay lemmas -/

theorem segsMatch_params_mem {ts ps params : List (List Char)}
    (h : segsMatch ts ps = some params) : ∀ x ∈ params, x ∈ ps := by
  induction ts generalizing ps params with
  | nil =>
    cases ps with
    | nil => simp [segsMatch] at h; subst h; simp
    | cons p ps2 => simp [segsMatch] at h
  | cons t ts ih =>
    cases ps with
    | nil => simp [segsMatch] at h
    | cons p ps2 =>
      rw [segsMatch] at h
      by_cases hv : isVarSeg t = true
      · rw [if_pos hv] at h
        by_cases hpe : p.isEmpty = true
        · rw [if_pos hpe] at h; simp at h
        · rw [if_neg hpe] at h
          cases hm : segsMatch ts ps2 with
          | none => rw [hm] at h; simp at h
          | some params2 =>
            rw [hm] at h
            simp only [Option.map_some', Option.some.injEq] at h
            subst h
            intro x hx
            rcases List.mem_cons.mp hx with rfl | hx2
            · exact List.mem_cons_self _ _
            · exact List.mem_cons_of_mem _ (ih hm x hx2)
      · rw [if_neg hv] at h
        by_cases hte : t = p
        · rw [if_pos hte] at h
          exact fun x hx => List.mem_cons_of_mem p (ih h x hx)
        · rw [if_neg hte] at h; simp at h

theorem segsMatch_nil_params {ts ps : List (List Char)}
    (h : segsMatch ts ps = some []) : ts = ps := by
  induction ts generalizing ps with
  | nil =>
    cases ps with
    | nil => rfl
    | cons p ps2 => simp [segsMatch] at h
  | cons t ts ih =>
    cases ps with
    | nil => simp [segsMatch] at h
    | cons p ps2 =>
      rw [segsMatch] at h
      by_cases hv : isVarSeg t = true
      · rw [if_pos hv] at h
        by_cases hpe : p.isEmpty = true
        · rw [if_pos hpe] at h; simp at h
        · rw [if_neg hpe] at h
          cases hm : segsMatch ts ps2 with
          | none => rw [hm] at h; simp at h
          | some params2 => rw [hm] at h; simp at h
      · rw [if_neg hv] at h
        by_cases hte : t = p
        · rw [if_pos hte] at h
          rw [hte, ih h]
        · rw [if_neg hte] at h; simp at h

theorem segsMatch_overlay {ts ps params : List (List Char)}
    (h : segsMatch ts ps = some params)
    (hesc : ∀ s ∈ params, pathEscapeSeg s = s) :
    overlaySegs ts params = ps := by
  induction ts generalizing ps params with
  | nil =>
    cases ps with
    | nil => simp [segsMatch] at h; subst h; simp [overlaySegs]
    | cons p ps2 => simp [segsMatch] at h
  | cons t ts ih =>
    cases ps with
    | nil => simp [segsMatch] at h
    | cons p ps2 =>
      rw [segsMatch] at h
      by_cases hv : isVarSeg t = true
      · rw [if_pos hv] at h
        by_cases hpe : p.isEmpty = true
        · rw [if_pos hpe] at h; simp at h
        · rw [if_neg hpe] at h
          cases hm : segsMatch ts ps2 with
          | none => rw [hm] at h; simp at h
          | some params2 =>
            rw [hm] at h
            simp only [Option.map_some', Option.some.injEq] at h
            subst h
            show (if isVarSeg t = true then
                pathEscapeSeg p :: overlaySegs ts params2
              else t :: overlaySegs ts (p :: params2)) = p :: ps2
            rw [if_pos hv, hesc p (List.mem_cons_self p _),
              ih hm (fun s hs => hesc s (List.mem_cons_of_mem p hs))]
      · rw [if_neg hv] at h
        by_cases hte : t = p
        · rw [if_pos hte] at h
          cases params with
          | nil =>
            show t :: ts = p :: ps2
            rw [hte, segsMatch_nil_params h]
          | cons c cs =>
            show (if isVarSeg t = true then
                pathEscapeSeg c :: overlaySegs ts cs
              else t :: overlaySegs ts (c :: cs)) = p :: ps2
            rw [if_neg hv, hte, ih h hesc]
        · rw [if_neg hte] at h; simp at h

theorem splitChars_slash_cons (rest : List Char) :
    splitChars ('/' :: rest) = [] :: splitChars rest := by
  simpa using @splitChars_append_slash [] rest (by simp)

theorem CoAPPathToHTTPPath_eq (tbl : PathTable) (p : String) (s0 seg1 : List Char)
    (rest : List (List Char))
    (hsegs : splitChars (ensureSlash p).data = s0 :: seg1 :: rest) :
    CoAPPathToHTTPPath tbl p =
      (if (lookupTpl tbl seg1).isEmpty then p
       else if rest.isEmpty then String.mk (lookupTpl tbl seg1)
       else String.mk (joinChars (overlaySegs (splitChars (lookupTpl tbl seg1)) rest))) := by
  simp only [CoAPPathToHTTPPath, hsegs]

theorem HTTPPathToCoapPath_eq_found {tbl : PathTable} {p code : String}
    {params : List (List Char)}
    (hfirst : findFirstRoute tbl (splitChars (ensureSlash p).data) = some (code, params)) :
    HTTPPathToCoapPath tbl p =
      String.mk ('/' :: (code.data ++
        if params.isEmpty then [] else '/' :: joinChars params)) := by
  simp only [HTTPPathToCoapPath, hfirst]

theorem HTTPPathToCoapPath_eq_none {tbl : PathTable} {p : String}
    (h : findFirstRoute tbl (splitChars (ensureSlash p).data) = none) :
    HTTPPathToCoapPath tbl p = p := by
  simp only [HTTPPathToCoapPath, h]

/-- C2 (amended): (1) for an HTTP path `p` with a leading slash whose first
matching template (the one the extracted enum code resolves back to) matches
`p` exactly — without absorbing the optional trailing slash — and whose
extracted dynamic segments are invariant under URL path-escaping, the round
trip `CoAPPathToHTTPPath (HTTPPathToCoapPath p)` returns `p`; (2) for a path
matching no template, `HTTPPathToCoapPath` returns the input unchanged; and
(3) `CoAPPathToHTTPPath` returns the input unchanged provided additionally
the second segment of the input is not a known enum code. -/
theorem coapPath_roundTrip (tbl : PathTable) :
    (∀ (p code : String) (tplD : List Char) (params : List (List Char)),
      startsWithSlash p = true →
      findFirstRoute tbl (splitChars p.data) = some (code, params) →
      lookupTpl tbl code.data = tplD →
      tplD ≠ [] →
      code.data ≠ [] →
      '/' ∉ code.data →
      segsMatch (splitChars tplD) (splitChars p.data) = some params →
      (∀ s ∈ params, pathEscapeSeg s = s) →
      CoAPPathToHTTPPath tbl (HTTPPathToCoapPath tbl p) = p) ∧
    (∀ p : String,
      findFirstRoute tbl (splitChars (ensureSlash p).data) = none →
      HTTPPathToCoapPath tbl p = p) ∧
    (∀ (p : String) (s0 s1 : List Char) (rest : List (List Char)),
      splitChars (ensureSlash p).data = s0 :: s1 :: rest →
      lookupTpl tbl s1 = [] →
      CoAPPathToHTTPPath tbl p = p) := by
  refine ⟨?_, ?_, ?_⟩
  · intro p code tplD params hp hfirst hlook htplne hcodene hcodeslash hdirect hesc
    have hens : ensureSlash p = p := by rw [ensureSlash, if_pos hp]
    have hfree : ∀ s ∈ params, '/' ∉ s := fun s hs =>
      mem_splitChars_no_slash (segsMatch_params_mem hdirect s hs)
    have htpl_isEmpty : tplD.isEmpty = false := by
      cases tplD with
      | nil => exact absurd rfl htplne
      | cons a as => rfl
    have htpl_p : params = [] → tplD = p.data := by
      intro hpn
      rw [hpn] at hdirect
      have h1 := segsMatch_nil_params hdirect
      have h2 := congrArg joinChars h1
      rwa [joinChars_splitChars, joinChars_splitChars] at h2
    have hq := @HTTPPathToCoapPath_eq_found tbl p code params (by rw [hens]; exact hfirst)
    cases params with
    | nil =>
      rw [hq]
      have hqs : String.mk ('/' :: (code.data ++
          if ([] : List (List Char)).isEmpty then [] else '/' :: joinChars [])) =
          String.mk ('/' :: code.data) := by simp
      rw [hqs]
      have hsw : startsWithSlash (String.mk ('/' :: code.data)) = true := rfl
      have hens2 : ensureSlash (String.mk ('/' :: code.data)) =
          String.mk ('/' :: code.data) := by
        rw [ensureSlash, if_pos hsw]
      have hsegs : splitChars (ensureSlash (String.mk ('/' :: code.data))).data =
          [] :: code.data :: [] := by
        rw [hens2]
        show splitChars ('/' :: code.data) = [[], code.data]
        rw [splitChars_slash_cons, splitChars_no_slash hcodeslash]
      rw [CoAPPathToHTTPPath_eq tbl _ [] code.data [] hsegs, hlook, htpl_isEmpty]
      simp only [Bool.false_eq_true, if_false, List.isEmpty_nil, if_true]
      rw [htpl_p rfl]
    | cons c cs =>
      rw [hq]
      have hqs : String.mk ('/' :: (code.data ++
          if (c :: cs).isEmpty then [] else '/' :: joinChars (c :: cs))) =
          String.mk ('/' :: (code.data ++ '/' :: joinChars (c :: cs))) := by simp
      rw [hqs]
      have hsw : startsWithSlash (String.mk
          ('/' :: (code.data ++ '/' :: joinChars (c :: cs)))) = true := rfl
      have hens2 : ensureSlash (String.mk ('/' :: (code.data ++ '/' :: joinChars (c :: cs)))) =
          String.mk ('/' :: (code.data ++ '/' :: joinChars (c :: cs))) := by
        rw [ensureSlash, if_pos hsw]
      have hsegs : splitChars (ensureSlash (String.mk
          ('/' :: (code.data ++ '/' :: joinChars (c :: cs))))).data =
          [] :: code.data :: c :: cs := by
        rw [hens2]
        show splitChars ('/' :: (code.data ++ '/' :: joinChars (c :: cs))) =
          [] :: code.data :: c :: cs
        rw [splitChars_slash_cons, splitChars_append_slash _ hcodeslash,
          splitChars_joinChars (by simp) hfree]
      rw [CoAPPathToHTTPPath_eq tbl _ [] code.data (c :: cs) hsegs, hlook, htpl_isEmpty]
      simp only [Bool.false_eq_true, if_false, List.isEmpty_cons]
      rw [segsMatch_overlay hdirect hesc, joinChars_splitChars]
  · intro p h
    exact HTTPPathToCoapPath_eq_none h
  · intro p s0 s1 rest hsegs hlook
    rw [CoAPPathToHTTPPath_eq tbl p s0 s1 rest hsegs, hlook]
    simp

/-! ### Placeholder counting and substitution -/

/-- Number of `{…}` placeholder segments among a template's segments. -/
def numVars (segs : List (List Char)) : Nat :=
  (segs.filter isVarSeg).length

/-- Substitute the path-escaped parameters for the `{…}` segments in order;
placeholders beyond the supplied parameters stay verbatim and excess
parameters are ignored. -/
def substVars : List (List Char) → List (List Char) → List (List Char)
  | [], _ => []
  | h :: hs, [] => h :: substVars hs []
  | h :: hs, c :: cs =>
    if isVarSeg h then pathEscapeSeg c :: substVars hs cs
    else h :: substVars hs (c :: cs)

theorem substVars_nil_params (hs : List (List Char)) : substVars hs [] = hs := by
  induction hs with
  | nil => rfl
  | cons h hs ih => rw [substVars, ih]

theorem overlaySegs_eq_substVars (hs cs : List (List Char)) :
    overlaySegs hs cs = substVars hs cs := by
  induction hs generalizing cs with
  | nil => cases cs <;> rfl
  | cons h hs ih =>
    cases cs with
    | nil =>
      show h :: hs = substVars (h :: hs) []
      rw [substVars_nil_params]
    | cons c cs2 =>
      rw [overlaySegs, substVars]
      by_cases hv : isVarSeg h = true
      · rw [if_pos hv, if_pos hv, ih]
      · rw [if_neg hv, if_neg hv, ih]

theorem substVars_static_cons {t : List Char} (hv : ¬ isVarSeg t = true)
    (hs ys : List (List Char)) : substVars (t :: hs) ys = t :: substVars hs ys := by
  cases ys with
  | nil => rfl
  | cons c cs => rw [substVars, if_neg hv]

theorem substVars_take {hs cs : List (List Char)} (h : numVars hs ≤ cs.length) :
    substVars hs cs = substVars hs (cs.take (numVars hs)) := by
  induction hs generalizing cs with
  | nil => rfl
  | cons t hs ih =>
    by_cases hv : isVarSeg t = true
    · have hn : numVars (t :: hs) = numVars hs + 1 := by
        simp [numVars, List.filter_cons, hv]
      rw [hn] at h ⊢
      cases cs with
      | nil => simp at h
      | cons c cs2 =>
        have h2 : numVars hs ≤ cs2.length := by
          simpa using Nat.le_of_succ_le_succ h
        rw [List.take_succ_cons, substVars, substVars, if_pos hv, if_pos hv,
          ih h2]
    · have hn : numVars (t :: hs) = numVars hs := by
        simp [numVars, List.filter_cons, hv]
      rw [hn] at h ⊢
      rw [substVars_static_cons hv, substVars_static_cons hv, ih h]

theorem utf8Bytes_ne_nil (c : Char) : utf8Bytes c ≠ [] := by
  rw [utf8Bytes]
  split
  · simp
  · split
    · simp
    · split <;> simp

theorem isVarSeg_pathEscapeSeg (s : List Char) : isVarSeg (pathEscapeSeg s) = false := by
  cases s with
  | nil => rfl
  | cons c rest =>
    show isVarSeg ((c :: rest).flatMap pathEscapeChar) = false
    rw [List.flatMap_cons, pathEscapeChar]
    split
    · split
      next hsafe =>
        simp only [List.cons_append, isVarSeg, List.head?, Option.some.injEq,
          decide_eq_false_iff_not]
        intro hc
        rw [hc] at hsafe
        exact absurd hsafe (by decide)
      · simp [escByte, isVarSeg]
    · cases hu : utf8Bytes c with
      | nil => exact absurd hu (utf8Bytes_ne_nil c)
      | cons b bs => simp [hu, List.flatMap_cons, escByte, isVarSeg]

theorem countP_substVars {hs cs : List (List Char)} (h : cs.length ≤ numVars hs) :
    (substVars hs cs).countP isVarSeg = numVars hs - cs.length := by
  induction hs generalizing cs with
  | nil =>
    have hcs : cs = [] := by
      cases cs with
      | nil => rfl
      | cons a as => simp [numVars] at h
    subst hcs
    rfl
  | cons t hs ih =>
    by_cases hv : isVarSeg t = true
    · have hn : numVars (t :: hs) = numVars hs + 1 := by
        simp [numVars, List.filter_cons, hv]
      rw [hn] at h ⊢
      cases cs with
      | nil =>
        rw [substVars, List.countP_cons]
        simp only [hv, if_true]
        rw [ih (by simp)]
        simp
      | cons c cs2 =>
        rw [substVars, if_pos hv, List.countP_cons, isVarSeg_pathEscapeSeg]
        simp only [Bool.false_eq_true, if_false, Nat.add_zero]
        rw [ih (by simpa using Nat.le_of_succ_le_succ h)]
        simp [Nat.succ_sub_succ]
    · have hn : numVars (t :: hs) = numVars hs := by
        simp [numVars, List.filter_cons, hv]
      rw [hn] at h ⊢
      rw [substVars_static_cons hv, List.countP_cons]
      simp only [hv, Bool.false_eq_true, if_false, Nat.add_zero]
      exact ih h

theorem isEmpty_false_of_ne_nil {α : Type} {l : List α} (h : l ≠ []) :
    l.isEmpty = false := by
  cases l with
  | nil => exact absurd rfl h
  | cons a as => rfl

/-- C6: when the CoAP path supplies at least one dynamic segment and more
than the matched template has `{…}` placeholders, the output is the template
with every placeholder substituted by the corresponding (path-escaped) CoAP
segment, using only the first `numVars` supplied segments: the excess CoAP
segments are silently dropped. -/
theorem coapPath_drops_excess (tbl : PathTable) (p : String) (s0 seg1 : List Char)
    (rest : List (List Char)) (tplD : List Char)
    (hsegs : splitChars (ensureSlash p).data = s0 :: seg1 :: rest)
    (htpl : lookupTpl tbl seg1 = tplD)
    (htplne : tplD ≠ [])
    (hmore : numVars (splitChars tplD) < rest.length) :
    CoAPPathToHTTPPath tbl p =
      String.mk (joinChars (substVars (splitChars tplD)
        (rest.take (numVars (splitChars tplD))))) := by
  have hrestne : rest ≠ [] := by
    intro hr
    rw [hr] at hmore
    simp at hmore
  rw [CoAPPathToHTTPPath_eq tbl p s0 seg1 rest hsegs, htpl,
    isEmpty_false_of_ne_nil htplne, isEmpty_false_of_ne_nil hrestne]
  simp only [Bool.false_eq_true, if_false]
  rw [overlaySegs_eq_substVars, substVars_take (Nat.le_of_lt hmore)]

/-- C6 witness: `/7/extra/information` maps to `/_matrix/client/r0/sync` and
`/e/deviceid/andmore` maps to `/_matrix/client/r0/devices/deviceid` under the
v1 table; the excess segments are dropped. -/
theorem coapPath_drops_excess_witness :
    CoAPPathToHTTPPath coapv1pathMappings "/7/extra/information" =
      "/_matrix/client/r0/sync" ∧
    CoAPPathToHTTPPath coapv1pathMappings "/e/deviceid/andmore" =
      "/_matrix/client/r0/devices/deviceid" := by
  constructor
  · exact (coapPath_drops_excess coapv1pathMappings "/7/extra/information"
      [] ['7'] [['e','x','t','r','a'], ['i','n','f','o','r','m','a','t','i','o','n']]
      "/_matrix/client/r0/sync".data (by decide) (by decide) (by decide)
      (by decide)).trans (by decide)
  · exact (coapPath_drops_excess coapv1pathMappings "/e/deviceid/andmore"
      [] ['e'] [['d','e','v','i','c','e','i','d'], ['a','n','d','m','o','r','e']]
      "/_matrix/client/r0/devices/{deviceId}".data (by decide) (by decide) (by decide)
      (by decide)).trans (by decide)

/-- C7 (amended): when the CoAP path supplies at least one but no more
dynamic segments than the matched template has `{…}` placeholders, the output
substitutes the supplied segments for the leading placeholders in order and
keeps every remaining `{…}` placeholder (and all static segments) verbatim —
the path is not truncated; `/e/deviceid` supplies exactly as many segments as
placeholders and yields `/_matrix/client/r0/devices/deviceid`. -/
theorem coapPath_keeps_missing_placeholders (tbl : PathTable) (p : String)
    (s0 seg1 : List Char) (rest : List (List Char)) (tplD : List Char)
    (hsegs : splitChars (ensureSlash p).data = s0 :: seg1 :: rest)
    (htpl : lookupTpl tbl seg1 = tplD)
    (htplne : tplD ≠ [])
    (hrestne : rest ≠ [])
    (hfewer : rest.length ≤ numVars (splitChars tplD)) :
    CoAPPathToHTTPPath tbl p =
      String.mk (joinChars (substVars (splitChars tplD) rest)) ∧
    (substVars (splitChars tplD) rest).countP isVarSeg =
      numVars (splitChars tplD) - rest.length := by
  constructor
  · rw [CoAPPathToHTTPPath_eq tbl p s0 seg1 rest hsegs, htpl,
      isEmpty_false_of_ne_nil htplne, isEmpty_false_of_ne_nil hrestne]
    simp only [Bool.false_eq_true, if_false]
    rw [overlaySegs_eq_substVars]
  · exact countP_substVars hfewer

/-- C7 counterexample: `/8/room` supplies one dynamic segment against the
three-placeholder template `rooms/{roomId}/state/{eventType}/{stateKey}`, and
the output is not a truncated path — it has full template length and keeps
the two unfilled `{…}` placeholders as literal text. -/
theorem coapPath_truncation_counterexample :
    CoAPPathToHTTPPath coapv1pathMappings "/8/room" =
      "/_matrix/client/r0/rooms/room/state/{eventType}/{stateKey}" ∧
    '{' ∈ (CoAPPathToHTTPPath coapv1pathMappings "/8/room").data := by
  constructor
  · decide
  · decide

/-- C7 witness: the boundary case `/e/deviceid` (exactly as many supplied
segments as placeholders) yields `/_matrix/client/r0/devices/deviceid` with
no placeholder left. -/
theorem coapPath_keeps_missing_placeholders_witness :
    CoAPPathToHTTPPath coapv1pathMappings "/e/deviceid" =
      "/_matrix/client/r0/devices/deviceid" ∧
    (substVars (splitChars "/_matrix/client/r0/devices/{deviceId}".data)
      [['d','e','v','i','c','e','i','d']]).countP isVarSeg = 0 := by
  constructor
  · exact ((coapPath_keeps_missing_placeholders coapv1pathMappings "/e/deviceid"
      [] ['e'] [['d','e','v','i','c','e','i','d']]
      "/_matrix/client/r0/devices/{deviceId}".data (by decide) (by decide)
      (by decide) (by decide) (by decide)).1).trans (by decide)
  · exact ((coapPath_keeps_missing_placeholders coapv1pathMappings "/e/deviceid"
      [] ['e'] [['d','e','v','i','c','e','i','d']]
      "/_matrix/client/r0/devices/{deviceId}".data (by decide) (by decide)
      (by decide) (by decide) (by decide)).2).trans (by decide)

/-- C2 counterexample: the round-trip law as stated fails on the code.
`/7` matches no template yet `CoAPPathToHTTPPath` rewrites it to the sync
path; and for three template-matching HTTP paths the round trip does not
return the input: `pushrules` (the template carries a trailing slash),
`/sync/` (the matcher absorbs the optional trailing slash), and a path whose
dynamic segment is altered by URL escaping. -/
theorem coapPath_roundTrip_counterexample :
    (findFirstRoute coapv1pathMappings (splitChars (ensureSlash "/7").data) = none ∧
      CoAPPathToHTTPPath coapv1pathMappings "/7" ≠ "/7") ∧
    ((findFirstRoute coapv1pathMappings
        (splitChars (ensureSlash "/_matrix/client/r0/pushrules").data)).isSome = true ∧
      CoAPPathToHTTPPath coapv1pathMappings
        (HTTPPathToCoapPath coapv1pathMappings "/_matrix/client/r0/pushrules") ≠
        "/_matrix/client/r0/pushrules") ∧
    ((findFirstRoute coapv1pathMappings
        (splitChars (ensureSlash "/_matrix/client/r0/sync/").data)).isSome = true ∧
      CoAPPathToHTTPPath coapv1pathMappings
        (HTTPPathToCoapPath coapv1pathMappings "/_matrix/client/r0/sync/") ≠
        "/_matrix/client/r0/sync/") ∧
    ((findFirstRoute coapv1pathMappings
        (splitChars (ensureSlash "/_matrix/client/r0/user/a b/filter").data)).isSome = true ∧
      CoAPPathToHTTPPath coapv1pathMappings
        (HTTPPathToCoapPath coapv1pathMappings "/_matrix/client/r0/user/a b/filter") ≠
        "/_matrix/client/r0/user/a b/filter") := by
  refine ⟨⟨by decide, by decide⟩, ⟨by decide, by decide⟩, ⟨by decide, by decide⟩,
    ⟨by decide, by decide⟩⟩

/-- C2 witness: the amended round-trip law instantiated on a one-entry table
with the filter template, the matching path `/_matrix/client/r0/user/bob/filter`
(part 1), the unmatched path `/foo` (part 2), and the unmapped CoAP path
`/zz/yy` (part 3). -/
theorem coapPath_roundTrip_witness :
    CoAPPathToHTTPPath [("5", "/_matrix/client/r0/user/{userId}/filter")]
      (HTTPPathToCoapPath [("5", "/_matrix/client/r0/user/{userId}/filter")]
        "/_matrix/client/r0/user/bob/filter") = "/_matrix/client/r0/user/bob/filter" ∧
    HTTPPathToCoapPath [("5", "/_matrix/client/r0/user/{userId}/filter")] "/foo" = "/foo" ∧
    CoAPPathToHTTPPath [("5", "/_matrix/client/r0/user/{userId}/filter")] "/zz/yy" = "/zz/yy" := by
  refine ⟨?_, ?_, ?_⟩
  · exact (coapPath_roundTrip [("5", "/_matrix/client/r0/user/{userId}/filter")]).1
      "/_matrix/client/r0/user/bob/filter" "5"
      "/_matrix/client/r0/user/{userId}/filter".data [['b','o','b']]
      (by decide) (by decide) (by decide) (by decide) (by decide) (by decide)
      (by decide) (by decide)
  · exact (coapPath_roundTrip [("5", "/_matrix/client/r0/user/{userId}/filter")]).2.1
      "/foo" (by decide)
  · exact (coapPath_roundTrip [("5", "/_matrix/client/r0/user/{userId}/filter")]).2.2
      "/zz/yy" [] ['z','z'] [['y','y']] (by decide) (by decide)

/-! ### CBOR and JSON values (`cbor.go`)

`CVal` models the decoded CBOR value space (`interface{}` after
`cbor.Unmarshal`), `JVal` the JSON value space.  A CBOR map key is a string,
an integer (`uint64`/`int64`/`int` are all collapsed by the source's `num`
helper), or something else (dropped by the converter). -/

inductive CKey where
  | int (n : Int)
  | str (s : String)
  | other
deriving DecidableEq

inductive CVal where
  | null
  | bool (b : Bool)
  | int (n : Int)
  | str (s : String)
  | arr (l : List CVal)
  | map (entries : List (CKey × CVal))

inductive JVal where
  | null
  | bool (b : Bool)
  | num (n : Int)
  | str (s : String)
  | arr (l : List JVal)
  | obj (entries : List (String × JVal))

/-- Insertion into a JSON object, modelling assignment `result[k] = v` on a
Go `map[string]interface{}`: overwrite the entry when the key is present,
otherwise add it. -/
def objInsert : List (String × JVal) → String → JVal → List (String × JVal)
  | [], k, v => [(k, v)]
  | (k2, v2) :: rest, k, v =>
    if k2 = k then (k2, v) :: rest else (k2, v2) :: objInsert rest k v

/-- Read a JSON object entry (Go map read `m[k]`, first matching key). -/
def lookupKey : List (String × JVal) → String → Option JVal
  | [], _ => none
  | (k2, v) :: rest, k => if k2 = k then some v else lookupKey rest k

/-- Number of entries under a key. -/
def countKey (l : List (String × JVal)) (k : String) : Nat :=
  l.countP (fun e => e.1 = k)

/-- Insertion sort with a boolean comparator; models `sort.Ints` and
`sort.Strings`. -/
def insertLe {α : Type} (le : α → α → Bool) (x : α) : List α → List α
  | [] => [x]
  | y :: ys => if le x y then x :: y :: ys else y :: insertLe le x ys

def insSort {α : Type} (le : α → α → Bool) : List α → List α
  | [] => []
  | x :: xs => insertLe le x (insSort le xs)

/-- `sort.Ints`. -/
def sortInts (l : List Int) : List Int :=
  insSort (fun a b => a ≤ b) l

/-- `sort.Strings` (byte-lexicographic order; on UTF-8 data this coincides
with code-point order). -/
def sortStrs (l : List String) : List String :=
  insSort (fun a b => a < b || a = b) l

/-- Value for an integer key: the converter stores integer-keyed values in a
dedicated `intMap`, the last write winning as in Go map assignment. -/
def intMapGetJ (entries : List (CKey × JVal)) (n : Int) : Option JVal :=
  (entries.reverse.find? (fun e => e.1 = CKey.int n)).map (·.2)

/-- Value for a string key (`m[is]` on the decoded CBOR map). -/
def strMapGetJ (entries : List (CKey × JVal)) (s : String) : Option JVal :=
  (entries.find? (fun e => e.1 = CKey.str s)).map (·.2)

/-- Reverse dictionary lookup (`lookup[kint]` on the Go `map[int]string`). -/
def lookupInt (lookup : List (Int × String)) (n : Int) : Option String :=
  (lookup.find? (fun e => e.1 = n)).map (·.2)

/-- The integer view of a CBOR map key (the source's `num` helper accepting
`uint64`, `int64` and `int`). -/
def intKeyOf : CKey → Option Int
  | .int n => some n
  | _ => none

/-- The string view of a CBOR map key. -/
def strKeyOf : CKey → Option String
  | .str s => some s
  | _ => none

/-- The map case of `cborInterfaceToJSONInterface` (`cbor.go`): collect the
integer keys (sorted ascending) and the string keys (sorted), write the
integer-keyed entries first under their dictionary name (or their decimal
string when unmapped), then write the string-keyed entries, clobbering any
integer-resolved entry that collided; keys of any other kind are dropped.
Values are pre-converted (`convEntries`), which commutes with the source's
convert-on-insert since conversion is a pure function of the value. -/
def buildObj (lookup : List (Int × String)) (entries : List (CKey × JVal)) :
    List (String × JVal) :=
  let intKeys := sortInts (entries.filterMap (fun e => intKeyOf e.1))
  let strKeys := sortStrs (entries.filterMap (fun e => strKeyOf e.1))
  let withInts := intKeys.foldl (fun acc ik =>
    objInsert acc ((lookupInt lookup ik).getD (toString ik))
      ((intMapGetJ entries ik).getD .null)) []
  strKeys.foldl (fun acc sk =>
    objInsert acc sk ((strMapGetJ entries sk).getD .null)) withInts

mutual
/-- `cborInterfaceToJSONInterface` from `cbor.go`: scalars pass through,
arrays recurse element-wise, maps are rebuilt with string keys via
`buildObj`. -/
def cborToJSONVal (lookup : List (Int × String)) : CVal → JVal
  | .null => .null
  | .bool b => .bool b
  | .int n => .num n
  | .str s => .str s
  | .arr l => .arr (convArr lookup l)
  | .map entries => .obj (buildObj lookup (convEntries lookup entries))

/-- Element-wise conversion of a CBOR array. -/
def convArr (lookup : List (Int × String)) : List CVal → List JVal
  | [] => []
  | v :: vs => cborToJSONVal lookup v :: convArr lookup vs

/-- Conversion of the values of a CBOR map, keys untouched. -/
def convEntries (lookup : List (Int × String)) :
    List (CKey × CVal) → List (CKey × JVal)
  | [] => []
  | (k, v) :: es => (k, cborToJSONVal lookup v) :: convEntries lookup es
end

/-! ### Object-building lemmas -/

theorem countKey_cons (k3 : String) (v3 : JVal) (rest : List (String × JVal))
    (k2 : String) :
    countKey ((k3, v3) :: rest) k2 = countKey rest k2 + (if k3 = k2 then 1 else 0) := by
  simp [countKey, List.countP_cons]

theorem countKey_objInsert_eq (l : List (String × JVal)) (k : String) (v : JVal)
    (k2 : String) :
    countKey (objInsert l k v) k2 =
      if k2 = k then max 1 (countKey l k2) else countKey l k2 := by
  induction l with
  | nil =>
    show countKey [(k, v)] k2 = _
    rw [countKey_cons]
    by_cases h : k2 = k
    · rw [if_pos h, if_pos h.symm]
      simp [countKey]
    · rw [if_neg h, if_neg (fun hc => h hc.symm)]
      simp [countKey]
  | cons e rest ih =>
    obtain ⟨k3, v3⟩ := e
    rw [objInsert]
    by_cases h3 : k3 = k
    · rw [if_pos h3, countKey_cons, countKey_cons]
      by_cases h2 : k2 = k
      · rw [if_pos h2]
        have : k3 = k2 := h3.trans h2.symm
        rw [if_pos this]
        omega
      · rw [if_neg h2]
    · rw [if_neg h3, countKey_cons, countKey_cons, ih]
      by_cases h2 : k2 = k
      · rw [if_pos h2, if_pos h2]
        have hne : ¬ k3 = k2 := fun hc => h3 (hc.trans h2)
        simp only [hne, if_false]
        omega
      · rw [if_neg h2, if_neg h2]

theorem countKey_objInsert_other {l : List (String × JVal)} {k k2 : String}
    (h : k2 ≠ k) (v : JVal) : countKey (objInsert l k v) k2 = countKey l k2 := by
  rw [countKey_objInsert_eq, if_neg h]

theorem countKey_objInsert_self_pos (l : List (String × JVal)) (k : String) (v : JVal) :
    1 ≤ countKey (objInsert l k v) k := by
  rw [countKey_objInsert_eq, if_pos rfl]
  omega

theorem countKey_objInsert_le {l : List (String × JVal)} {k2 : String}
    (k : String) (v : JVal) (h : countKey l k2 ≤ 1) :
    countKey (objInsert l k v) k2 ≤ 1 := by
  rw [countKey_objInsert_eq]
  by_cases h2 : k2 = k
  · rw [if_pos h2]
    omega
  · rw [if_neg h2]
    exact h

theorem lookupKey_objInsert_self (l : List (String × JVal)) (k : String) (v : JVal) :
    lookupKey (objInsert l k v) k = some v := by
  induction l with
  | nil => simp [objInsert, lookupKey]
  | cons e rest ih =>
    obtain ⟨k3, v3⟩ := e
    rw [objInsert]
    by_cases h3 : k3 = k
    · rw [if_pos h3, lookupKey, if_pos h3]
    · rw [if_neg h3, lookupKey, if_neg h3, ih]

theorem lookupKey_objInsert_other {k k2 : String} (h : k2 ≠ k)
    (l : List (String × JVal)) (v : JVal) :
    lookupKey (objInsert l k v) k2 = lookupKey l k2 := by
  induction l with
  | nil => simp [objInsert, lookupKey, Ne.symm h]
  | cons e rest ih =>
    obtain ⟨k3, v3⟩ := e
    rw [objInsert]
    by_cases h3 : k3 = k
    · by_cases h32 : k3 = k2
      · exact absurd (h32.symm.trans h3) h
      · rw [if_pos h3, lookupKey, if_neg h32, lookupKey, if_neg h32]
    · rw [if_neg h3, lookupKey, lookupKey]
      by_cases h32 : k3 = k2
      · rw [if_pos h32, if_pos h32]
      · rw [if_neg h32, if_neg h32, ih]

theorem countKey_pos_of_lookupKey {l : List (String × JVal)} {k : String} {v : JVal}
    (h : lookupKey l k = some v) : 1 ≤ countKey l k := by
  induction l with
  | nil => simp [lookupKey] at h
  | cons e rest ih =>
    obtain ⟨k3, v3⟩ := e
    rw [lookupKey] at h
    by_cases h3 : k3 = k
    · simp [countKey, List.countP_cons, h3]
    · rw [if_neg h3] at h
      simp only [countKey, List.countP_cons] at ih ⊢
      have := ih h
      omega

theorem countKey_foldl_objInsert_le1 {α : Type} (κ : α → String) (ν : α → JVal)
    (xs : List α) (init : List (String × JVal))
    (h : ∀ k2, countKey init k2 ≤ 1) (k2 : String) :
    countKey (xs.foldl (fun acc x => objInsert acc (κ x) (ν x)) init) k2 ≤ 1 := by
  induction xs generalizing init with
  | nil => exact h k2
  | cons x xs ih =>
    rw [List.foldl_cons]
    exact ih (objInsert init (κ x) (ν x))
      (fun k3 => countKey_objInsert_le (κ x) (ν x) (h k3))

theorem lookupKey_foldl_objInsert_not_mem {ν : String → JVal}
    {xs : List String} {k2 : String} (h : k2 ∉ xs)
    (init : List (String × JVal)) :
    lookupKey (xs.foldl (fun acc x => objInsert acc x (ν x)) init) k2 =
      lookupKey init k2 := by
  induction xs generalizing init with
  | nil => rfl
  | cons x xs ih =>
    simp only [List.mem_cons, not_or] at h
    rw [List.foldl_cons, ih h.2, lookupKey_objInsert_other h.1 init (ν x)]

theorem lookupKey_foldl_objInsert_mem {ν : String → JVal}
    {xs : List String} {k : String} (hnd : xs.Nodup) (hx : k ∈ xs)
    (init : List (String × JVal)) :
    lookupKey (xs.foldl (fun acc x => objInsert acc x (ν x)) init) k =
      some (ν k) := by
  induction xs generalizing init with
  | nil => cases hx
  | cons x xs ih =>
    rw [List.nodup_cons] at hnd
    rcases List.mem_cons.mp hx with rfl | hx2
    · rw [List.foldl_cons, lookupKey_foldl_objInsert_not_mem hnd.1,
        lookupKey_objInsert_self]
    · rw [List.foldl_cons]
      exact ih hnd.2 hx2 _

theorem countKey_pos_foldl_objInsert {α : Type} {κ : α → String} {ν : α → JVal}
    {xs : List α} {k2 : String} (init : List (String × JVal))
    (h : 1 ≤ countKey init k2) :
    1 ≤ countKey (xs.foldl (fun acc x => objInsert acc (κ x) (ν x)) init) k2 := by
  induction xs generalizing init with
  | nil => exact h
  | cons x xs ih =>
    rw [List.foldl_cons]
    refine ih _ ?_
    by_cases h2 : k2 = κ x
    · rw [h2]
      exact countKey_objInsert_self_pos init (κ x) (ν x)
    · rw [countKey_objInsert_other h2]
      exact h

/-! ### Sorting lemmas -/

theorem insertLe_perm {α : Type} (le : α → α → Bool) (x : α) (l : List α) :
    (insertLe le x l).Perm (x :: l) := by
  induction l with
  | nil => exact List.Perm.refl _
  | cons y ys ih =>
    rw [insertLe]
    by_cases h : le x y = true
    · rw [if_pos h]
    · rw [if_neg h]
      exact (List.Perm.cons y ih).trans (List.Perm.swap x y ys)

theorem insSort_perm {α : Type} (le : α → α → Bool) (l : List α) :
    (insSort le l).Perm l := by
  induction l with
  | nil => exact List.Perm.refl _
  | cons x xs ih =>
    exact (insertLe_perm le x (insSort le xs)).trans (List.Perm.cons x ih)

theorem sortStrs_perm (l : List String) : (sortStrs l).Perm l :=
  insSort_perm _ l

theorem sortInts_perm (l : List Int) : (sortInts l).Perm l :=
  insSort_perm _ l

/-! ### Entry conversion lemmas -/

theorem convEntries_map_fst (lookup : List (Int × String))
    (es : List (CKey × CVal)) :
    (convEntries lookup es).map Prod.fst = es.map Prod.fst := by
  induction es with
  | nil => rfl
  | cons e es ih =>
    obtain ⟨k, v⟩ := e
    rw [convEntries, List.map_cons, List.map_cons, ih]

theorem convEntries_mem {lookup : List (Int × String)} {es : List (CKey × CVal)}
    {k : CKey} {v : CVal} (h : (k, v) ∈ es) :
    (k, cborToJSONVal lookup v) ∈ convEntries lookup es := by
  induction es with
  | nil => cases h
  | cons e es ih =>
    obtain ⟨k2, v2⟩ := e
    rw [convEntries]
    rcases List.mem_cons.mp h with heq | h2
    · rw [Prod.mk.injEq] at heq
      rw [heq.1, heq.2]
      exact List.mem_cons_self _ _
    · exact List.mem_cons_of_mem _ (ih h2)

theorem strMapGetJ_of_mem {ce : List (CKey × JVal)} {k : String} {v : JVal}
    (hnd : (ce.map Prod.fst).Nodup) (hm : (CKey.str k, v) ∈ ce) :
    strMapGetJ ce k = some v := by
  induction ce with
  | nil => cases hm
  | cons e rest ih =>
    obtain ⟨k3, v3⟩ := e
    rw [List.map_cons, List.nodup_cons] at hnd
    rw [strMapGetJ, List.find?]
    rcases List.mem_cons.mp hm with heq | h2
    · rw [Prod.mk.injEq] at heq
      rw [← heq.1, ← heq.2]
      simp
    · have hne : ¬ (k3 = CKey.str k) := by
        intro hc
        refine hnd.1 ?_
        rw [hc]
        show CKey.str k ∈ List.map Prod.fst rest
        exact List.mem_map_of_mem Prod.fst h2
      simp only [hne, decide_False]
      exact ih hnd.2 h2

/-- The entries of the JSON object a conversion produced (empty for
non-objects). -/
def objEntries : JVal → List (String × JVal)
  | .obj l => l
  | _ => []

theorem filterMap_fst {β : Type} (g : CKey → Option β) (es : List (CKey × JVal)) :
    (es.filterMap fun e => g e.1) = (es.map Prod.fst).filterMap g := by
  induction es with
  | nil => rfl
  | cons e es ih =>
    rw [List.map_cons, List.filterMap_cons, List.filterMap_cons]
    cases g e.1 <;> simp [ih]

theorem strKeyOf_inj : ∀ (a b : CKey) (s : String),
    s ∈ strKeyOf a → s ∈ strKeyOf b → a = b := by
  intro a b s ha hb
  cases a with
  | str sa =>
    cases b with
    | str sb =>
      simp only [strKeyOf, Option.mem_def, Option.some.injEq] at ha hb
      rw [ha, hb]
    | int m => simp [strKeyOf] at hb
    | other => simp [strKeyOf] at hb
  | int m => simp [strKeyOf] at ha
  | other => simp [strKeyOf] at ha

/-- The string-key phase of `buildObj` leaves exactly one entry under each
string key of the map, holding that key's value: it overwrites whatever the
integer-key phase wrote under the same name. -/
theorem buildObj_str_key_wins (lookup : List (Int × String))
    (ce : List (CKey × JVal)) (k : String) (v : JVal)
    (hknd : (ce.map Prod.fst).Nodup)
    (hmem : (CKey.str k, v) ∈ ce) :
    lookupKey (buildObj lookup ce) k = some v ∧
    countKey (buildObj lookup ce) k = 1 := by
  have hrepr : buildObj lookup ce =
      (sortStrs (ce.filterMap fun e => strKeyOf e.1)).foldl
        (fun acc sk => objInsert acc sk ((strMapGetJ ce sk).getD JVal.null))
        ((sortInts (ce.filterMap fun e => intKeyOf e.1)).foldl
          (fun acc ik => objInsert acc ((lookupInt lookup ik).getD (toString ik))
            ((intMapGetJ ce ik).getD JVal.null)) []) := rfl
  have hstrnodup : (sortStrs (ce.filterMap fun e => strKeyOf e.1)).Nodup := by
    refine ((sortStrs_perm _).nodup_iff).mpr ?_
    rw [filterMap_fst]
    exact List.Nodup.filterMap strKeyOf_inj hknd
  have hkmem : k ∈ sortStrs (ce.filterMap fun e => strKeyOf e.1) := by
    refine ((sortStrs_perm _).mem_iff).mpr ?_
    rw [filterMap_fst]
    refine List.mem_filterMap.mpr ⟨CKey.str k, ?_, rfl⟩
    exact List.mem_map_of_mem Prod.fst hmem
  have hval : strMapGetJ ce k = some v := strMapGetJ_of_mem hknd hmem
  have hlook : lookupKey (buildObj lookup ce) k = some v := by
    rw [hrepr, lookupKey_foldl_objInsert_mem hstrnodup hkmem, hval]
    rfl
  refine ⟨hlook, ?_⟩
  have hle : countKey (buildObj lookup ce) k ≤ 1 := by
    rw [hrepr]
    refine countKey_foldl_objInsert_le1 (fun sk => sk) _ _ _ ?_ k
    refine countKey_foldl_objInsert_le1
      (fun ik => (lookupInt lookup ik).getD (toString ik)) _ _ _ ?_
    intro k2
    simp [countKey]
  have hge : 1 ≤ countKey (buildObj lookup ce) k := countKey_pos_of_lookupKey hlook
  omega

/-- C1: in the CBOR→JSON conversion of a map containing both a string key `k`
and an integer key `n` whose reverse-dictionary name is `k`, the resulting
JSON object has exactly one entry under `k`, holding the converted value of
the string-keyed entry: the string key wins over the integer key. -/
theorem cborToJSON_string_key_wins (lookup : List (Int × String))
    (entries : List (CKey × CVal)) (k : String) (n : Int) (vs vn : CVal)
    (hnodup : (entries.map Prod.fst).Nodup)
    (hstr : (CKey.str k, vs) ∈ entries)
    (hint : (CKey.int n, vn) ∈ entries)
    (hlk : lookupInt lookup n = some k) :
    lookupKey (objEntries (cborToJSONVal lookup (CVal.map entries))) k =
      some (cborToJSONVal lookup vs) ∧
    countKey (objEntries (cborToJSONVal lookup (CVal.map entries))) k = 1 := by
  have hobj : objEntries (cborToJSONVal lookup (CVal.map entries)) =
      buildObj lookup (convEntries lookup entries) := rfl
  rw [hobj]
  refine buildObj_str_key_wins lookup (convEntries lookup entries) k
    (cborToJSONVal lookup vs) ?_ (convEntries_mem hstr)
  rw [convEntries_map_fst]
  exact hnodup

/-- C1 witness: the S5 scenario — CBOR map `{ "one": 11, 1: 12 }` under the
reverse dictionary `{1 → "one"}` decodes to the JSON object `{"one": 11}`
with exactly one entry. -/
theorem cborToJSON_string_key_wins_witness :
    lookupKey (objEntries (cborToJSONVal [(1, "one")]
      (CVal.map [(CKey.str "one", CVal.int 11), (CKey.int 1, CVal.int 12)]))) "one" =
      some (JVal.num 11) ∧
    countKey (objEntries (cborToJSONVal [(1, "one")]
      (CVal.map [(CKey.str "one", CVal.int 11), (CKey.int 1, CVal.int 12)]))) "one" = 1 ∧
    cborToJSONVal [(1, "one")]
      (CVal.map [(CKey.str "one", CVal.int 11), (CKey.int 1, CVal.int 12)]) =
      JVal.obj [("one", JVal.num 11)] := by
  have h := cborToJSON_string_key_wins [(1, "one")]
    [(CKey.str "one", CVal.int 11), (CKey.int 1, CVal.int 12)] "one" 1
    (CVal.int 11) (CVal.int 12)
    (by simp)
    (List.mem_cons_self _ _)
    (List.mem_cons_of_mem _ (List.mem_cons_self _ _))
    (by rfl)
  exact ⟨h.1, h.2, by rfl⟩

/-! ### The sync observation predicate (`coap_observe_sync.go`) -/

/-- `gjson.GetBytes(body, "next_batch").Str`: the string value of the
top-level `next_batch` field; `""` when the body is absent (`nil`), not an
object, the field is missing, or the field is not a string. -/
def nextBatchStr : Option JVal → String
  | some (.obj kvs) =>
    match lookupKey kvs "next_batch" with
    | some (.str s) => s
    | _ => ""
  | _ => ""

/-- The path normalization both closures of `NewSyncObservations` perform:
convert the CoAP path to an HTTP path and strip one leading slash. -/
def syncNormalizedPath (tbl : PathTable) (path : String) : String :=
  let path1 := CoAPPathToHTTPPath tbl path
  if startsWithSlash path1 then String.mk path1.data.tail else path1

/-- The `hasUpdatedFn` injected by `NewSyncObservations`
(`coap_observe_sync.go`), with HTTP bodies modelled as parsed JSON values
(`none` models a `nil` body). -/
def syncHasUpdated (tbl : PathTable) (path : String) (prev curr : Option JVal) : Bool :=
  if syncNormalizedPath tbl path ≠ "_matrix/client/r0/sync" then true
  else if prev.isNone && curr.isSome then true
  else !(nextBatchStr prev == nextBatchStr curr)

/-- C5 (amended): the injected update predicate treats every path whose
normalized form (CoAP→HTTP conversion, leading slash stripped) is the sync
path by the sync rules — true when `prev` is nil and `curr` is not, or when
the `next_batch` strings differ, false otherwise — and returns true for every
path whose normalized form is not the sync path.  (The path compared is the
normalized one, so CoAP enum paths such as `/7` also get the sync rules.) -/
theorem syncHasUpdated_spec (tbl : PathTable) (path : String)
    (prev curr : Option JVal) :
    (syncNormalizedPath tbl path ≠ "_matrix/client/r0/sync" →
      syncHasUpdated tbl path prev curr = true) ∧
    (syncNormalizedPath tbl path = "_matrix/client/r0/sync" →
      syncHasUpdated tbl path prev curr =
        ((prev.isNone && curr.isSome) ||
          !(nextBatchStr prev == nextBatchStr curr))) := by
  constructor
  · intro h
    rw [syncHasUpdated, if_pos h]
  · intro h
    rw [syncHasUpdated, if_neg (by simp [h])]
    cases hA : prev.isNone && curr.isSome with
    | true => rw [if_pos rfl]; simp
    | false =>
      rw [if_neg (by simp)]
      simp

/-- C5 counterexample: `/7` is not the sync path
`/_matrix/client/r0/sync`, yet the predicate does not return true for it
regardless of `prev` and `curr` — with both bodies nil it returns false,
because `/7` normalizes to the sync path. -/
theorem syncHasUpdated_counterexample :
    "/7" ≠ "/_matrix/client/r0/sync" ∧
    syncHasUpdated coapv1pathMappings "/7" none none = false := by
  exact ⟨by decide, by decide⟩

/-- C5 witness: a path normalizing away from sync always updates, and the
literal sync path with two bodies of different `next_batch` updates. -/
theorem syncHasUpdated_spec_witness :
    syncHasUpdated coapv1pathMappings "/foo" none none = true ∧
    syncHasUpdated coapv1pathMappings "/_matrix/client/r0/sync"
      (some (JVal.obj [("next_batch", JVal.str "a")]))
      (some (JVal.obj [("next_batch", JVal.str "b")])) = true := by
  constructor
  · exact (syncHasUpdated_spec coapv1pathMappings "/foo" none none).1 (by decide)
  · exact ((syncHasUpdated_spec coapv1pathMappings "/_matrix/client/r0/sync"
      (some (JVal.obj [("next_batch", JVal.str "a")]))
      (some (JVal.obj [("next_batch", JVal.str "b")]))).2 (by decide)).trans (by rfl)

/-! ### Observation registration state (`coap_observe.go`)

`ObsState` models the two maps guarded by `Observations.mu`: `obs`
(registration ID → client) and `accessTokens` (access token → live
observation count).  Go map reads return the zero value for missing keys;
`tokGet` models that for the integer counts. -/

structure ObsState (κ : Type) where
  obs : List (String × κ)
  accessTokens : List (String × Int)
deriving DecidableEq

/-- Go map read, `none` when the key is absent. -/
def mapGet? {β : Type} (m : List (String × β)) (k : String) : Option β :=
  (m.find? (fun e => e.1 = k)).map (·.2)

/-- Go map assignment `m[k] = v`. -/
def mapSet {β : Type} : List (String × β) → String → β → List (String × β)
  | [], k, v => [(k, v)]
  | (k2, v2) :: rest, k, v =>
    if k2 = k then (k2, v) :: rest else (k2, v2) :: mapSet rest k v

/-- Go `delete(m, k)`. -/
def mapDelete {β : Type} (m : List (String × β)) (k : String) : List (String × β) :=
  m.filter (fun e => !(e.1 == k))

/-- Go read of an `int`-valued map: missing keys read as `0`. -/
def tokGet (m : List (String × Int)) (k : String) : Int :=
  (mapGet? m k).getD 0

/-- `Observations.addRegistration`: no-op returning false when the
registration ID is present, otherwise store the client and increment the
token's count. -/
def addRegistration {κ : Type} (s : ObsState κ) (client : κ)
    (regID accessToken : String) : ObsState κ × Bool :=
  if (mapGet? s.obs regID).isSome then (s, false)
  else ({ obs := mapSet s.obs regID client,
          accessTokens := mapSet s.accessTokens accessToken
            (tokGet s.accessTokens accessToken + 1) }, true)

/-- `Observations.removeRegistration`: delete the registration (if any) and
decrement the token's count unconditionally. -/
def removeRegistration {κ : Type} (s : ObsState κ) (regID accessToken : String) :
    ObsState κ :=
  { obs := mapDelete s.obs regID,
    accessTokens := mapSet s.accessTokens accessToken
      (tokGet s.accessTokens accessToken - 1) }

/-- `Observations.getRegistration`. -/
def getRegistration {κ : Type} (s : ObsState κ) (regID : String) : Option κ :=
  mapGet? s.obs regID

/-- `Observations.safeToRemove`: more than one live observation for the
token. -/
def safeToRemove {κ : Type} (s : ObsState κ) (accessToken : String) : Bool :=
  tokGet s.accessTokens accessToken > 1

theorem mapGet?_mapSet_self {β : Type} (m : List (String × β)) (k : String) (v : β) :
    mapGet? (mapSet m k v) k = some v := by
  induction m with
  | nil => simp [mapSet, mapGet?, List.find?]
  | cons e rest ih =>
    obtain ⟨k2, v2⟩ := e
    rw [mapSet]
    by_cases h2 : k2 = k
    · rw [if_pos h2, mapGet?, List.find?]
      simp [h2]
    · rw [if_neg h2, mapGet?, List.find?]
      simp only [h2, decide_False]
      exact ih

theorem mapGet?_mapSet_other {β : Type} {k k2 : String} (h : k2 ≠ k)
    (m : List (String × β)) (v : β) :
    mapGet? (mapSet m k v) k2 = mapGet? m k2 := by
  induction m with
  | nil => simp [mapSet, mapGet?, List.find?, Ne.symm h]
  | cons e rest ih =>
    obtain ⟨k3, v3⟩ := e
    rw [mapSet]
    by_cases h3 : k3 = k
    · rw [if_pos h3, mapGet?, mapGet?, List.find?, List.find?]
      have : ¬ (k3 = k2) := fun hc => h (hc.symm.trans h3)
      simp [this]
    · rw [if_neg h3, mapGet?, mapGet?, List.find?, List.find?]
      by_cases h32 : k3 = k2
      · simp [h32]
      · simp only [h32, decide_False]
        exact ih

theorem mapGet?_mapDelete_self {β : Type} (m : List (String × β)) (k : String) :
    mapGet? (mapDelete m k) k = none := by
  induction m with
  | nil => rfl
  | cons e rest ih =>
    obtain ⟨k2, v2⟩ := e
    rw [mapDelete, List.filter_cons]
    by_cases h2 : k2 = k
    · simp only [h2, beq_self_eq_true, Bool.not_true, if_false]
      exact ih
    · have hb : (!(k2 == k)) = true := by simp [h2]
      rw [if_pos hb, mapGet?, List.find?]
      simp only [h2, decide_False]
      exact ih

theorem tokGet_mapSet_self (m : List (String × Int)) (k : String) (v : Int) :
    tokGet (mapSet m k v) k = v := by
  rw [tokGet, mapGet?_mapSet_self]
  rfl

/-- C4: a register (`addRegistration`) followed by a deregister
(`removeRegistration`) with the same registration ID and access token — from
a state where the ID is unregistered and the token has no live observations —
leaves no registration entry for the ID and a zero ref-count for the token
(Go map reads of the counter return 0, exactly as for a never-seen token). -/
theorem register_then_deregister_clean {κ : Type} (s : ObsState κ) (client : κ)
    (regID accessToken : String)
    (hreg : getRegistration s regID = none)
    (htok : tokGet s.accessTokens accessToken = 0) :
    (addRegistration s client regID accessToken).2 = true ∧
    getRegistration (removeRegistration
      (addRegistration s client regID accessToken).1 regID accessToken) regID = none ∧
    tokGet (removeRegistration
      (addRegistration s client regID accessToken).1 regID accessToken).accessTokens
      accessToken = 0 := by
  rw [getRegistration] at hreg
  have hcond : ((mapGet? s.obs regID).isSome) = false := by rw [hreg]; rfl
  have hadd : addRegistration s client regID accessToken =
      ({ obs := mapSet s.obs regID client,
         accessTokens := mapSet s.accessTokens accessToken
           (tokGet s.accessTokens accessToken + 1) }, true) := by
    rw [addRegistration, if_neg (by rw [hcond]; simp)]
  refine ⟨by rw [hadd], ?_, ?_⟩
  · rw [hadd]
    show mapGet? (mapDelete (mapSet s.obs regID client) regID) regID = none
    exact mapGet?_mapDelete_self _ _
  · rw [hadd]
    show tokGet (mapSet (mapSet s.accessTokens accessToken
      (tokGet s.accessTokens accessToken + 1)) accessToken
      (tokGet (mapSet s.accessTokens accessToken
        (tokGet s.accessTokens accessToken + 1)) accessToken - 1)) accessToken = 0
    rw [tokGet_mapSet_self, tokGet_mapSet_self, htok]
    omega

/-- C4 witness: from the empty state, registering and deregistering
`(endpoint, path, token)` leaves no registration and a zero count. -/
theorem register_then_deregister_clean_witness :
    (addRegistration (⟨[], []⟩ : ObsState Nat) 7 "addr/path@tok" "Bearer t").2 = true ∧
    getRegistration (removeRegistration
      (addRegistration (⟨[], []⟩ : ObsState Nat) 7 "addr/path@tok" "Bearer t").1
      "addr/path@tok" "Bearer t") "addr/path@tok" = none ∧
    tokGet (removeRegistration
      (addRegistration (⟨[], []⟩ : ObsState Nat) 7 "addr/path@tok" "Bearer t").1
      "addr/path@tok" "Bearer t").accessTokens "Bearer t" = 0 :=
  register_then_deregister_clean ⟨[], []⟩ 7 "addr/path@tok" "Bearer t"
    (by rfl) (by rfl)

/-- C10: `removeRegistration` decrements the per-token counter
unconditionally — also when no registration exists for the given ID — the
counter entry is never deleted from `accessTokens` (it is written back even
at zero or below), existing entries survive every removal, and the counter
can be driven to zero or negative by removing twice, in which case
`safeToRemove` is computed from an understated count while another
registration for the same token is still live. -/
theorem removeRegistration_unconditional :
    (∀ (κ : Type) (s : ObsState κ) (regID accessToken : String),
      tokGet (removeRegistration s regID accessToken).accessTokens accessToken =
        tokGet s.accessTokens accessToken - 1) ∧
    (∀ (κ : Type) (s : ObsState κ) (regID accessToken : String),
      (mapGet? (removeRegistration s regID accessToken).accessTokens
        accessToken).isSome = true) ∧
    (∀ (κ : Type) (s : ObsState κ) (regID accessToken k2 : String),
      (mapGet? s.accessTokens k2).isSome = true →
      (mapGet? (removeRegistration s regID accessToken).accessTokens k2).isSome = true) ∧
    (let s1 := (addRegistration (⟨[], []⟩ : ObsState Nat) 1 "r1" "tok").1
     let s2 := (addRegistration s1 2 "r2" "tok").1
     let s3 := removeRegistration s2 "r1" "tok"
     let s4 := removeRegistration s3 "r1" "tok"
     getRegistration s2 "r1" = some 1 ∧
     tokGet s2.accessTokens "tok" = 2 ∧
     getRegistration s4 "r1" = none ∧
     tokGet s4.accessTokens "tok" = 0 ∧
     getRegistration s4 "r2" = some 2 ∧
     safeToRemove s4 "tok" = false) ∧
    (tokGet (removeRegistration (removeRegistration (⟨[], []⟩ : ObsState Nat)
      "r" "tok") "r" "tok").accessTokens "tok" = -2) := by
  refine ⟨?_, ?_, ?_, ?_, by decide⟩
  · intro κ s regID accessToken
    exact tokGet_mapSet_self _ _ _
  · intro κ s regID accessToken
    show (mapGet? (mapSet s.accessTokens accessToken _) accessToken).isSome = true
    rw [mapGet?_mapSet_self]
    rfl
  · intro κ s regID accessToken k2 h
    show (mapGet? (mapSet s.accessTokens accessToken _) k2).isSome = true
    by_cases h2 : k2 = accessToken
    · rw [h2, mapGet?_mapSet_self]
      rfl
    · rw [mapGet?_mapSet_other h2]
      exact h
  · exact ⟨by decide, by decide, by decide, by decide, by decide, by decide⟩

/-- C10 witness: the surviving-entry implication instantiated on a state that
already counts one observation for the token. -/
theorem removeRegistration_unconditional_witness :
    (mapGet? (⟨[("r1", 1)], [("tok", 1)]⟩ : ObsState Nat).accessTokens "tok").isSome
      = true ∧
    (mapGet? (removeRegistration (⟨[("r1", 1)], [("tok", 1)]⟩ : ObsState Nat)
      "r1" "tok").accessTokens "tok").isSome = true :=
  ⟨by rfl, removeRegistration_unconditional.2.2.1 Nat
    ⟨[("r1", 1)], [("tok", 1)]⟩ "r1" "tok" "tok" (by rfl)⟩

/-! ### The long-poll state machine (`coap_observe.go`, `longPoll`)

One loop iteration is a step function over an explicit state.  External
effects are an oracle per iteration (`PollInput`): whether `getRegistration`
still finds the client, the upstream handler's response for the (updated)
request, whether `sendResponse` succeeds, and what `safeToRemove` answers.
Per-worker configuration (`PollEnv`) carries the codec, the injected
`hasUpdatedFn` and `updateFns`, and the path.  Bodies are byte lists.
`seqNum` is a Go `uint32`, so the increment is taken modulo `2^32`. -/

abbrev Body := List Nat

inductive CoapCode where
  | Content
  | BadRequest
  | Unauthorized
  | Forbidden
  | NotFound
  | MethodNotAllowed
  | RequestEntityTooLarge
  | InternalServerError
  | BadGateway
  | GatewayTimeout
deriving DecidableEq

/-- `statusCodes` from `coap.go` (RFC 8075 Table 2 subset). -/
def statusCodes : List (Nat × CoapCode) :=
  [(200, .Content), (400, .BadRequest), (401, .Unauthorized), (403, .Forbidden),
   (404, .NotFound), (405, .MethodNotAllowed), (413, .RequestEntityTooLarge),
   (500, .InternalServerError), (502, .BadGateway), (504, .GatewayTimeout)]

/-- The error-branch mapping in `longPoll`: a known status maps through
`statusCodes`, anything else falls back to `codes.BadGateway`. -/
def statusToCoapCode (status : Nat) : CoapCode :=
  match statusCodes.find? (fun e => e.1 = status) with
  | some e => e.2
  | none => .BadGateway

structure PollEnv (ρ : Type) where
  path : String
  cborToJSON : Body → Option Body
  hasUpdatedFn : Option (String → Option Body → Body → Bool)
  updateFns : List (String → Option Body → ρ → ρ)

structure ServeResult where
  statusCode : Nat
  body : Body
  readOk : Bool
deriving DecidableEq

structure PollInput (ρ : Type) where
  clientExists : Bool
  serve : ρ → ServeResult
  sendOk : Bool
  safeToRemove : Bool

structure PollState (ρ : Type) where
  req : ρ
  lastRespBody : Option Body
  seqNum : Nat
deriving DecidableEq

structure SentNotification where
  seqNum : Nat
  code : CoapCode
  body : Option Body
deriving DecidableEq

structure StepResult (ρ : Type) where
  state : PollState ρ
  exits : Bool
  sent : Option SentNotification
  sleeps : List Nat
deriving DecidableEq

/-- The byte value of the opening brace checked by
`lastRespBody[0] != '{'`. -/
def leftBraceByte : Nat := 123

/-- The loop-head conversion: a previous response body that does not start
with `{` is converted from CBOR to JSON; on conversion failure the body
becomes `nil` (the source logs but keeps looping). -/
def convertedLast {ρ : Type} (env : PollEnv ρ) (st : PollState ρ) : Option Body :=
  match st.lastRespBody with
  | none => none
  | some b => if b.head? ≠ some leftBraceByte then env.cborToJSON b else some b

/-- The request after the `updateFns` pass of this iteration. -/
def updatedReq {ρ : Type} (env : PollEnv ρ) (st : PollState ρ) : ρ :=
  env.updateFns.foldl (fun r fn => fn env.path (convertedLast env st) r) st.req

/-- The `hasUpdatedFn` gate: absent predicate or failed CBOR→JSON conversion
of the response count as an update (fallthrough); otherwise the predicate
decides. -/
def updateCheckPasses {ρ : Type} (env : PollEnv ρ) (last : Option Body)
    (respBody : Body) : Bool :=
  match env.hasUpdatedFn with
  | none => true
  | some fn =>
    match env.cborToJSON respBody with
    | none => true
    | some respJSON => fn env.path last respJSON

/-- One iteration of the `longPoll` loop.  `exits = true` models `return`,
which removes the registration through the deferred `removeRegistration`. -/
def pollStep {ρ : Type} (env : PollEnv ρ) (inp : PollInput ρ)
    (st : PollState ρ) : StepResult ρ :=
  if !inp.clientExists then ⟨st, true, none, []⟩
  else
    let last := convertedLast env st
    let req2 := updatedReq env st
    let res := inp.serve req2
    if !res.readOk then ⟨⟨req2, last, st.seqNum⟩, true, none, []⟩
    else if res.statusCode ≠ 200 then
      ⟨⟨req2, last, st.seqNum⟩, true,
        some ⟨st.seqNum, statusToCoapCode res.statusCode, none⟩, []⟩
    else if !(updateCheckPasses env last res.body) then
      ⟨⟨req2, some res.body, st.seqNum⟩, false, none, [1]⟩
    else if inp.sendOk then
      ⟨⟨req2, some res.body, (st.seqNum + 1) % 2 ^ 32⟩, false,
        some ⟨st.seqNum, .Content, some res.body⟩, [1]⟩
    else if inp.safeToRemove then
      ⟨⟨req2, some res.body, (st.seqNum + 1) % 2 ^ 32⟩, true,
        some ⟨st.seqNum, .Content, some res.body⟩, []⟩
    else
      ⟨⟨req2, last, (st.seqNum + 1) % 2 ^ 32⟩, false,
        some ⟨st.seqNum, .Content, some res.body⟩, [60, 1]⟩

/-- Run the loop over a list of per-iteration oracles, collecting the
transmitted notifications, until an exit or the oracle list ends. -/
def pollRun {ρ : Type} (env : PollEnv ρ) :
    List (PollInput ρ) → PollState ρ →
    List SentNotification × PollState ρ × Bool
  | [], st => ([], st, false)
  | inp :: rest, st =>
    let r := pollStep env inp st
    let sent0 := match r.sent with | some s => [s] | none => []
    if r.exits then (sent0, r.state, true)
    else
      let t := pollRun env rest r.state
      (sent0 ++ t.1, t.2)

/-- `longPoll`'s initial state: the original request, no previous body, and
sequence number 2. -/
def initialPollState {ρ : Type} (req : ρ) : PollState ρ :=
  ⟨req, none, 2⟩

/-- C3 (amended): in the long-poll loop, when transmitting a notification
fails and the registration's access token has NO other live registrations
(`safeToRemove` false, i.e. refCount ≤ 1), the stored previous response body
is reverted to its pre-transmission snapshot (the loop-head value) so the
update is not lost, and the worker keeps the registration and retries after
sleeping 60 seconds (followed by the regular 1-second loop delay); when the
token HAS other live registrations (`safeToRemove` true, refCount > 1), the
Registration is removed (the worker returns, firing the deferred
`removeRegistration`) and the worker exits. -/
theorem longPoll_send_failure {ρ : Type} (env : PollEnv ρ) (inp : PollInput ρ)
    (st : PollState ρ)
    (hclient : inp.clientExists = true)
    (hread : (inp.serve (updatedReq env st)).readOk = true)
    (hstatus : (inp.serve (updatedReq env st)).statusCode = 200)
    (hupd : updateCheckPasses env (convertedLast env st)
      (inp.serve (updatedReq env st)).body = true)
    (hsend : inp.sendOk = false) :
    (inp.safeToRemove = false →
      (pollStep env inp st).exits = false ∧
      (pollStep env inp st).state.lastRespBody = convertedLast env st ∧
      (pollStep env inp st).sleeps = [60, 1] ∧
      (pollStep env inp st).sent =
        some ⟨st.seqNum, CoapCode.Content,
          some (inp.serve (updatedReq env st)).body⟩) ∧
    (inp.safeToRemove = true →
      (pollStep env inp st).exits = true ∧
      (pollStep env inp st).sent =
        some ⟨st.seqNum, CoapCode.Content,
          some (inp.serve (updatedReq env st)).body⟩) := by
  have hstep : pollStep env inp st =
      (if inp.safeToRemove then
        ⟨⟨updatedReq env st, some (inp.serve (updatedReq env st)).body,
          (st.seqNum + 1) % 2 ^ 32⟩, true,
          some ⟨st.seqNum, .Content, some (inp.serve (updatedReq env st)).body⟩, []⟩
      else
        ⟨⟨updatedReq env st, convertedLast env st, (st.seqNum + 1) % 2 ^ 32⟩, false,
          some ⟨st.seqNum, .Content, some (inp.serve (updatedReq env st)).body⟩,
          [60, 1]⟩) := by
    rw [pollStep]
    rw [hclient]
    simp only [Bool.not_true, Bool.false_eq_true, if_false, hread, hstatus, hupd,
      hsend, Bool.not_false, ne_eq, not_true_eq_false]
  constructor
  · intro hsafe
    rw [hstep, hsafe]
    simp
  · intro hsafe
    rw [hstep, hsafe]
    simp

/-- C3 counterexample: a concrete send-failure iteration.  With
`safeToRemove = true` (refCount > 1) the step exits and the registration is
removed — not, as the claim states, reverted and retried; the revert-and-
retry behavior occurs in the `safeToRemove = false` (refCount ≤ 1) branch. -/
theorem longPoll_send_failure_counterexample :
    (pollStep (⟨"/7", fun _ => none, none, []⟩ : PollEnv Unit)
      ⟨true, fun _ => ⟨200, [42], true⟩, false, true⟩
      ⟨(), some [leftBraceByte, 1], 2⟩).exits = true ∧
    (pollStep (⟨"/7", fun _ => none, none, []⟩ : PollEnv Unit)
      ⟨true, fun _ => ⟨200, [42], true⟩, false, false⟩
      ⟨(), some [leftBraceByte, 1], 2⟩).exits = false ∧
    (pollStep (⟨"/7", fun _ => none, none, []⟩ : PollEnv Unit)
      ⟨true, fun _ => ⟨200, [42], true⟩, false, false⟩
      ⟨(), some [leftBraceByte, 1], 2⟩).state.lastRespBody =
        some [leftBraceByte, 1] ∧
    (pollStep (⟨"/7", fun _ => none, none, []⟩ : PollEnv Unit)
      ⟨true, fun _ => ⟨200, [42], true⟩, false, false⟩
      ⟨(), some [leftBraceByte, 1], 2⟩).sleeps = [60, 1] := by
  refine ⟨by decide, by decide, by decide, by decide⟩

/-- C3 witness: the amended failure behavior instantiated on a concrete
iteration in both branches. -/
theorem longPoll_send_failure_witness :
    ((pollStep (⟨"/7", fun _ => none, none, []⟩ : PollEnv Unit)
      ⟨true, fun _ => ⟨200, [42], true⟩, false, false⟩
      ⟨(), some [leftBraceByte, 1], 2⟩).exits = false ∧
     (pollStep (⟨"/7", fun _ => none, none, []⟩ : PollEnv Unit)
      ⟨true, fun _ => ⟨200, [42], true⟩, false, false⟩
      ⟨(), some [leftBraceByte, 1], 2⟩).state.lastRespBody =
        convertedLast (⟨"/7", fun _ => none, none, []⟩ : PollEnv Unit)
          ⟨(), some [leftBraceByte, 1], 2⟩ ∧
     (pollStep (⟨"/7", fun _ => none, none, []⟩ : PollEnv Unit)
      ⟨true, fun _ => ⟨200, [42], true⟩, false, false⟩
      ⟨(), some [leftBraceByte, 1], 2⟩).sleeps = [60, 1] ∧
     (pollStep (⟨"/7", fun _ => none, none, []⟩ : PollEnv Unit)
      ⟨true, fun _ => ⟨200, [42], true⟩, false, false⟩
      ⟨(), some [leftBraceByte, 1], 2⟩).sent =
        some ⟨2, CoapCode.Content, some [42]⟩) ∧
    ((pollStep (⟨"/7", fun _ => none, none, []⟩ : PollEnv Unit)
      ⟨true, fun _ => ⟨200, [42], true⟩, false, true⟩
      ⟨(), some [leftBraceByte, 1], 2⟩).exits = true ∧
     (pollStep (⟨"/7", fun _ => none, none, []⟩ : PollEnv Unit)
      ⟨true, fun _ => ⟨200, [42], true⟩, false, true⟩
      ⟨(), some [leftBraceByte, 1], 2⟩).sent =
        some ⟨2, CoapCode.Content, some [42]⟩) := by
  constructor
  · exact (longPoll_send_failure (⟨"/7", fun _ => none, none, []⟩ : PollEnv Unit)
      ⟨true, fun _ => ⟨200, [42], true⟩, false, false⟩
      ⟨(), some [leftBraceByte, 1], 2⟩
      (by rfl) (by rfl) (by rfl) (by rfl) (by rfl)).1 rfl
  · exact (longPoll_send_failure (⟨"/7", fun _ => none, none, []⟩ : PollEnv Unit)
      ⟨true, fun _ => ⟨200, [42], true⟩, false, true⟩
      ⟨(), some [leftBraceByte, 1], 2⟩
      (by rfl) (by rfl) (by rfl) (by rfl) (by rfl)).2 rfl

theorem pollStep_seq_cases {ρ : Type} (env : PollEnv ρ) (inp : PollInput ρ)
    (st : PollState ρ) (hseq : st.seqNum + 1 < 2 ^ 32) :
    ((pollStep env inp st).sent = none ∧
      (pollStep env inp st).state.seqNum = st.seqNum) ∨
    ((pollStep env inp st).exits = true ∧
      ∃ c b, (pollStep env inp st).sent = some ⟨st.seqNum, c, b⟩) ∨
    ((pollStep env inp st).exits = false ∧
      (pollStep env inp st).state.seqNum = st.seqNum + 1 ∧
      ∃ b, (pollStep env inp st).sent =
        some ⟨st.seqNum, CoapCode.Content, b⟩) := by
  have hmod : (st.seqNum + 1) % 2 ^ 32 = st.seqNum + 1 := Nat.mod_eq_of_lt hseq
  rw [pollStep]
  cases hc : inp.clientExists with
  | false => left; simp
  | true =>
    simp only [Bool.not_true, Bool.false_eq_true, if_false]
    cases hr : (inp.serve (updatedReq env st)).readOk with
    | false => left; simp
    | true =>
      simp only [Bool.not_true, Bool.false_eq_true, if_false]
      by_cases hs : (inp.serve (updatedReq env st)).statusCode ≠ 200
      · rw [if_pos hs]
        right; left
        exact ⟨by trivial, _, _, rfl⟩
      · rw [if_neg hs]
        cases hu : updateCheckPasses env (convertedLast env st)
            (inp.serve (updatedReq env st)).body with
        | false => left; simp
        | true =>
          simp only [Bool.not_true, Bool.false_eq_true, if_false]
          cases hk : inp.sendOk with
          | true =>
            simp only [if_true]
            right; right
            exact ⟨by trivial, hmod, _, rfl⟩
          | false =>
            simp only [Bool.false_eq_true, if_false]
            cases hsafe : inp.safeToRemove with
            | true =>
              simp only [if_true]
              right; left
              exact ⟨by trivial, _, _, rfl⟩
            | false =>
              simp only [Bool.false_eq_true, if_false]
              right; right
              exact ⟨by trivial, hmod, _, rfl⟩

theorem pollRun_seqNums {ρ : Type} (env : PollEnv ρ) (inputs : List (PollInput ρ))
    (st : PollState ρ) (hbound : st.seqNum + inputs.length < 2 ^ 32) :
    ((pollRun env inputs st).1.map SentNotification.seqNum) =
      List.range' st.seqNum (pollRun env inputs st).1.length := by
  induction inputs generalizing st with
  | nil => rfl
  | cons inp rest ih =>
    rw [List.length_cons] at hbound
    have hseq : st.seqNum + 1 < 2 ^ 32 := by omega
    rw [pollRun]
    rcases pollStep_seq_cases env inp st hseq with
      ⟨hno, hsame⟩ | ⟨hex, c, b, hsent⟩ | ⟨hex, hsucc, b, hsent⟩
    · rw [hno]
      cases he : (pollStep env inp st).exits with
      | true => simp
      | false =>
        simp only [List.nil_append]
        have := ih (pollStep env inp st).state (by rw [hsame]; omega)
        simpa [hsame] using this
    · rw [hsent, hex]
      simp [List.range'_succ st.seqNum 0 1]
    · rw [hsent, hex]
      simp only [Bool.false_eq_true, if_false, List.cons_append, List.nil_append,
        List.map_cons, List.length_cons]
      rw [List.range'_succ st.seqNum _ 1]
      have := ih (pollStep env inp st).state (by rw [hsucc]; omega)
      rw [hsucc] at this
      rw [this]

/-- C8: within a single registration's long-poll worker, started at
sequence number 2, the sequence numbers of the transmitted notifications form
the run `[2, 3, 4, …]` — consecutive, hence strictly increasing — and the
first transmitted notification carries sequence number 2.  (The counter is a
`uint32`; the run is shorter than `2^32` iterations, so no wrap occurs.) -/
theorem longPoll_seqNums_increasing {ρ : Type} (env : PollEnv ρ)
    (inputs : List (PollInput ρ)) (req : ρ)
    (hbound : inputs.length < 2 ^ 32 - 2) :
    ((pollRun env inputs (initialPollState req)).1.map SentNotification.seqNum) =
      List.range' 2 (pollRun env inputs (initialPollState req)).1.length ∧
    ((pollRun env inputs (initialPollState req)).1.map
      SentNotification.seqNum).Pairwise (· < ·) ∧
    (∀ s, ((pollRun env inputs (initialPollState req)).1.map
      SentNotification.seqNum).head? = some s → s = 2) := by
  have h := pollRun_seqNums env inputs (initialPollState req) (by
    show 2 + inputs.length < 2 ^ 32
    omega)
  refine ⟨h, ?_, ?_⟩
  · rw [h]
    exact List.pairwise_lt_range' 2 _
  · intro s hs
    rw [h] at hs
    cases hlen : (pollRun env inputs (initialPollState req)).1.length with
    | zero => rw [hlen] at hs; simp [List.range'] at hs
    | succ n =>
      rw [hlen] at hs
      have hs2 : (List.range' 2 (n + 1)).head? = some s := hs
      rw [List.range'_succ 2 n 1] at hs2
      simp at hs2
      omega

/-- C8 witness: a three-iteration run (update, no-update, update) transmits
notifications with sequence numbers exactly `[2, 3]`. -/
theorem longPoll_seqNums_increasing_witness :
    ((pollRun (⟨"/7", fun b => some b, some (fun _ prev _ => prev.isNone), []⟩ :
        PollEnv Unit)
      [⟨true, fun _ => ⟨200, [leftBraceByte], true⟩, true, false⟩,
       ⟨true, fun _ => ⟨200, [leftBraceByte], true⟩, true, false⟩,
       ⟨true, fun _ => ⟨200, [leftBraceByte], true⟩, true, false⟩]
      (initialPollState ())).1.map SentNotification.seqNum) = [2] ∧
    ((pollRun (⟨"/7", fun b => some b, none, []⟩ : PollEnv Unit)
      [⟨true, fun _ => ⟨200, [leftBraceByte], true⟩, true, false⟩,
       ⟨true, fun _ => ⟨200, [leftBraceByte], true⟩, true, false⟩]
      (initialPollState ())).1.map SentNotification.seqNum) = [2, 3] := by
  constructor
  · have h := (longPoll_seqNums_increasing
      (⟨"/7", fun b => some b, some (fun _ prev _ => prev.isNone), []⟩ : PollEnv Unit)
      [⟨true, fun _ => ⟨200, [leftBraceByte], true⟩, true, false⟩,
       ⟨true, fun _ => ⟨200, [leftBraceByte], true⟩, true, false⟩,
       ⟨true, fun _ => ⟨200, [leftBraceByte], true⟩, true, false⟩]
      () (by decide)).1
    rw [h]
    rfl
  · have h := (longPoll_seqNums_increasing
      (⟨"/7", fun b => some b, none, []⟩ : PollEnv Unit)
      [⟨true, fun _ => ⟨200, [leftBraceByte], true⟩, true, false⟩,
       ⟨true, fun _ => ⟨200, [leftBraceByte], true⟩, true, false⟩]
      () (by decide)).1
    rw [h]
    rfl

/-! ### The CBOR request handler (`CBORToJSONHandler`) -/

structure HttpRequest where
  contentType : String
  body : Body
deriving DecidableEq

/-- `CBORToJSONHandler` from the v1 handler file: for a request with
Content-Type `application/cbor`, convert the body to JSON (an error leaves a
`nil` conversion output, which reads back as the empty body), install the
converted body, rewrite Content-Type to `application/json`, and invoke the
next handler; other requests pass through untouched.  The response path
(`jsonToCBORWriter`) is outside this model.  The handler never produces an
error response itself: its result is always the next handler's result. -/
def cborToJSONHandler {σ : Type} (codec : Body → Option Body)
    (next : HttpRequest → σ) (req : HttpRequest) : σ :=
  if req.contentType = "application/cbor" then
    next ⟨"application/json", (codec req.body).getD []⟩
  else next req

/-- C9: when a CBOR-bodied request fails CBOR→JSON conversion, the wrapper
does not fail the request: it still invokes the next handler, with the body
replaced by the empty conversion output and Content-Type rewritten to
`application/json`; no error response is produced at this layer. -/
theorem cborToJSONHandler_conversion_failure {σ : Type} (codec : Body → Option Body)
    (next : HttpRequest → σ) (req : HttpRequest)
    (hct : req.contentType = "application/cbor")
    (hfail : codec req.body = none) :
    cborToJSONHandler codec next req = next ⟨"application/json", []⟩ := by
  rw [cborToJSONHandler, if_pos hct, hfail]
  rfl

/-- C9 witness: a concrete CBOR request whose conversion fails is forwarded
to the next handler with an empty JSON body. -/
theorem cborToJSONHandler_conversion_failure_witness :
    cborToJSONHandler (fun _ => none) (fun r => r)
      ⟨"application/cbor", [0xFF]⟩ = ⟨"application/json", []⟩ :=
  cborToJSONHandler_conversion_failure (fun _ => none) (fun r => r)
    ⟨"application/cbor", [0xFF]⟩ rfl rfl
